import Mathlib

set_option maxRecDepth 8000

/-!
Verification of `mitosheet/step_performers/graph_steps/graph_utils.py`.

Python strings are modelled as `List Char`.  Python's `str.find` (which
returns `-1` on failure, and accepts a possibly negative start index) and
Python slicing `s[a:b]` are modelled faithfully below.  The plotly
rendering call `fig.write_html` is an external collaborator: the rendered
document string it produces is taken as the input of the extraction
function `get_html_and_script_from_figure`.
-/

/-- Python strings are modelled as lists of characters. -/
abbrev Str : Type := List Char

/-- Python's string join `sep.join(parts)`. -/
def joinSep (sep : Str) : List Str → Str
  | [] => []
  | [x] => x
  | x :: y :: xs => x ++ sep ++ joinSep sep (y :: xs)

/-- `matchAt needle hay i` holds when `needle` occurs in `hay` starting at
position `i` (and fits inside `hay`). -/
def matchAt (needle hay : Str) (i : Nat) : Bool :=
  decide ((hay.drop i).take needle.length = needle)

/-- Position of the first occurrence of `needle` in `s`, scanning left to
right (`none` when there is no occurrence). -/
def auxFind (needle : Str) : Str → Option Nat
  | [] => if needle = [] then some 0 else none
  | c :: rest =>
    if (c :: rest).take needle.length = needle then some 0
    else (auxFind needle rest).map (fun j => j + 1)

/-- Python's `hay.find(needle, start)` for a non-negative start index;
`none` models the `-1` failure value. -/
def pyFindN (hay needle : Str) (start : Nat) : Option Nat :=
  if start ≤ hay.length then (auxFind needle (hay.drop start)).map (fun j => start + j)
  else none

/-- Python's `hay.find(needle, start)` where `start` may be negative (as
happens in the source when the result `-1` of a previous `find` is used as
a start index).  A negative start is interpreted relative to the end of
the string and clamped at `0`, exactly as CPython does. -/
def pyFindI (hay needle : Str) (start : Int) : Int :=
  let st : Nat := if start < 0 then ((hay.length : Int) + start).toNat else start.toNat
  match pyFindN hay needle st with
  | some k => (k : Int)
  | none => -1

/-- Python slicing `s[a:b]` with (possibly negative) integer bounds. -/
def pySliceI (s : Str) (a b : Int) : Str :=
  let a' : Nat := if a < 0 then ((s.length : Int) + a).toNat else a.toNat
  let b' : Nat := if b < 0 then ((s.length : Int) + b).toNat else b.toNat
  (s.drop a').take (b' - a')

/-- The fixed opening tag `<script type="text/javascript">` scanned for by
`get_html_and_script_from_figure`. -/
def sOpenTag : Str := "<script type=\"text/javascript\">".toList

/-- The fixed closing tag `</script>`. -/
def sCloseTag : Str := "</script>".toList

/-- The container opening marker `<div id=`. -/
def dOpenMarker : Str := "<div id=".toList

/-- The container closing tag `</div>`. -/
def dCloseTag : Str := "</div>".toList

/-- The `while index < len(original_html)` loop of
`get_html_and_script_from_figure` that collects all script bodies.  The
loop always terminates because the cursor strictly increases; the `fuel`
argument (instantiated with `original_html.length + 1`, an upper bound on
the number of iterations, since every iteration moves the cursor forward
by at least the length of the closing tag) makes the recursion structural. -/
def scanScripts (doc : Str) : Nat → Str → Nat → Str
  | _, acc, 0 => acc
  | index, acc, fuel + 1 =>
    if index < doc.length then
      match pyFindN doc sOpenTag index with
      | none => acc
      | some scriptStart =>
        match pyFindN doc sCloseTag scriptStart with
        | none => acc
        | some scriptEnd =>
          scanScripts doc (scriptEnd + 9)
            (acc ++ (doc.drop (scriptStart + sOpenTag.length)).take
                (scriptEnd - (scriptStart + sOpenTag.length)) ++ ";\n".toList)
            fuel
    else acc

/-- The `{"html": div, "script": script}` dictionary returned by
`get_html_and_script_from_figure`. -/
structure ExtractedFragments where
  html : Str
  script : Str

/-- Embedding of `get_html_and_script_from_figure`.  The external
`fig.write_html` call is the opaque rendering collaborator, so the
function is modelled on the rendered document string `original_html` that
the source reads back from the buffer.  The `include_plotlyjs` flag is
only forwarded to the renderer and does not affect the extraction. -/
def get_html_and_script_from_figure (original_html : Str) : ExtractedFragments :=
  let divStart := pyFindI original_html dOpenMarker 0
  let divEnd := pyFindI original_html dCloseTag divStart
  { html := pySliceI original_html divStart divEnd,
    script := scanScripts original_html 0 [] (original_html.length + 1) }

/-- One block `sep ++ <script ...> ++ body ++ </script>` of a structured
rendered document: `sep` is the text before the block's opening tag. -/
def blockStr (p : Str × Str) : Str := p.1 ++ sOpenTag ++ p.2 ++ sCloseTag

/-- A rendered document's script region made of consecutive blocks. -/
def blocksFlat (parts : List (Str × Str)) : Str := (parts.map blockStr).flatten

/-- The expected script output: each body followed by `;` and a newline,
concatenated in document order. -/
def joinedBodies (parts : List (Str × Str)) : Str :=
  (parts.map (fun p => p.2 ++ ";\n".toList)).flatten

/-- A parameter-dictionary value: either a scalar already rendered to a
code literal by the external `column_header_to_transpiled_code`
collaborator, or a nested dictionary (an ordered association list, as
Python dictionaries preserve insertion order). -/
inductive ParamValue : Type where
  | scalar (lit : Str)
  | node (entries : List (Str × ParamValue))

/-- The four-space `TAB` constant of the source. -/
def TAB : Str := "    ".toList

/-- `NEWLINE_CONSTANT`: empty in single-line mode, `\n` otherwise. -/
def nlConst (as_single_line : Bool) : Str := if as_single_line then [] else ['\n']

/-- `TAB_CONSTANT`: empty in single-line mode, `TAB` otherwise. -/
def tabConst (as_single_line : Bool) : Str := if as_single_line then [] else TAB

/-- `TAB_CONSTANT * n`: Python string repetition. -/
def tabs (as_single_line : Bool) (n : Nat) : Str :=
  (List.replicate n (tabConst as_single_line)).flatten

mutual

/-- The `code_chunk` computed for one `key, value` pair of the loop in
`param_dict_to_code`: scalars give `key=value`, nested dictionaries give
`key = <recursive>`.  Exactly as in the source, the recursive call passes
`level + 1` but does NOT forward `as_single_line` (which therefore takes
its default value `False`). -/
def entryChunk : Str → ParamValue → Nat → Str
  | key, ParamValue.scalar lit, _ => key ++ "=".toList ++ lit
  | key, ParamValue.node sub, level =>
    key ++ " = ".toList ++ param_dict_to_code sub (level + 1) false

/-- Embedding of `param_dict_to_code`. -/
def param_dict_to_code (entries : List (Str × ParamValue)) (level : Nat)
    (as_single_line : Bool) : Str :=
  (if level = 0 then nlConst as_single_line
   else "dict(".toList ++ nlConst as_single_line)
  ++ entriesLoop entries level as_single_line true
  ++ (if level = 0 then nlConst as_single_line
      else nlConst as_single_line ++ tabs as_single_line level ++ ")".toList)

/-- The `for key, value in param_dict.items()` loop of
`param_dict_to_code`; `first` tracks `value_num == 0`. -/
def entriesLoop : List (Str × ParamValue) → Nat → Bool → Bool → Str
  | [], _, _, _ => []
  | (key, value) :: rest, level, as_single_line, first =>
    (if first then [] else ", ".toList ++ nlConst as_single_line)
    ++ tabs as_single_line (level + 1)
    ++ entryChunk key value level
    ++ entriesLoop rest level as_single_line false

end

/-- The chart-type identifiers of the source. -/
def SCATTER : Str := "scatter".toList

def LINE : Str := "line".toList

def BAR : Str := "bar".toList

def HISTOGRAM : Str := "histogram".toList

def BOX : Str := "box".toList

def STRIP : Str := "strip".toList

def VIOLIN : Str := "violin".toList

def ECDF : Str := "ecdf".toList

def DENSITY_HEATMAP : Str := "density heatmap".toList

def DENSITY_CONTOUR : Str := "density contour".toList

/-- The label table `GRAPH_TITLE_LABELS`, in source order. -/
def GRAPH_TITLE_LABELS : List (Str × Str) :=
  [(SCATTER, "scatter plot".toList),
   (LINE, "line".toList),
   (BAR, "bar chart".toList),
   (BOX, "box plot".toList),
   (HISTOGRAM, "histogram".toList),
   (STRIP, "strip".toList),
   (VIOLIN, "violin".toList),
   (ECDF, "ecdf".toList),
   (DENSITY_HEATMAP, "density heatmap".toList),
   (DENSITY_CONTOUR, "density contour".toList)]

/-- Embedding of `get_graph_title`.  Column headers are modelled by their
`str(...)` rendering.  The dictionary access `GRAPH_TITLE_LABELS[graph_type]`
raises `KeyError` for an unknown key, modelled by `none`. -/
def get_graph_title (x_axis_column_headers y_axis_column_headers : List Str)
    (filtered : Bool) (graph_type : Str) : Option Str :=
  match List.lookup graph_type GRAPH_TITLE_LABELS with
  | none => none
  | some graph_title_label =>
    let all_column_headers :=
      joinSep ", ".toList (x_axis_column_headers ++ y_axis_column_headers)
    some (joinSep " ".toList
      (if filtered
       then [all_column_headers, "(first 1000 rows)".toList, graph_title_label]
       else [all_column_headers, graph_title_label]))

/-- One value of `graph_data_dict`: only its `graphTabName` field is read. -/
structure GraphData where
  graphTabName : Str

/-- Decimal digits of `n`, accumulator style; `fuel` (instantiated with
`n + 1`, always sufficient) makes the recursion structural. -/
def toDecAux : Nat → Nat → List Char → List Char
  | 0, _, ds => ds
  | fuel + 1, n, ds =>
    if n / 10 = 0 then Nat.digitChar (n % 10) :: ds
    else toDecAux fuel (n / 10) (Nat.digitChar (n % 10) :: ds)

/-- Python's `str(n)` for a natural number. -/
def natToStr (n : Nat) : Str := toDecAux (n + 1) n []

/-- Python's f-string `f'graph{n}'`. -/
def graphName (n : Nat) : Str := "graph".toList ++ natToStr n

/-- The `all_graph_names` list collected by the loop at the start of
`get_new_graph_tab_name`. -/
def all_graph_names (graph_data_dict : List (Str × GraphData)) : List Str :=
  graph_data_dict.map (fun p => p.2.graphTabName)

/-- The `while new_graph_name in all_graph_names` probing loop.  It always
terminates: the candidate names `graph0, graph1, ...` are pairwise
distinct, so after at most `names.length + 1` probes one of them is free;
that fuel makes the recursion structural. -/
def probeAux (names : List Str) : Nat → Nat → Option Str
  | 0, _ => none
  | fuel + 1, k =>
    if graphName k ∈ names then probeAux names fuel (k + 1)
    else some (graphName k)

/-- Embedding of `get_new_graph_tab_name`. -/
def get_new_graph_tab_name (graph_data_dict : List (Str × GraphData)) : Option Str :=
  probeAux (all_graph_names graph_data_dict)
    ((all_graph_names graph_data_dict).length + 1) 0

/-- Reference (non-accumulator) decimal printer, used to reason about
`natToStr`. -/
def decRef (n : Nat) : Str :=
  if h : n / 10 = 0 then [Nat.digitChar (n % 10)]
  else decRef (n / 10) ++ [Nat.digitChar (n % 10)]
termination_by n
decreasing_by
  exact Nat.div_lt_self (Nat.pos_of_ne_zero (fun h0 => h (by simp [h0]))) (by omega)

/-- Decimal reading, the left inverse of `decRef`. -/
def fromDecimal (l : Str) : Nat :=
  l.foldl (fun acc c => 10 * acc + (c.toNat - 48)) 0

/-- Concrete rendered document with one container and two script blocks
with bodies `a=1` and `b=2`. -/
def exDocTwoScripts : Str :=
  ("<div id=\"g\" class=\"plotly-graph-div\"></div>"
    ++ "<script type=\"text/javascript\">a=1</script>"
    ++ "<script type=\"text/javascript\">b=2</script>").toList

/-- Concrete rendered document with one container and no script block. -/
def exDocNoScripts : Str :=
  "<div id=\"g\" class=\"plotly-graph-div\"></div>".toList

/-! ### Basic lemmas about `matchAt` and `pyFindN` -/

theorem dropLenAppend (a b : Str) (j : Nat) :
    (a ++ b).drop (a.length + j) = b.drop j := by
  induction a with
  | nil => simp
  | cons x a ih =>
    have h : (x :: a).length + j = (a.length + j) + 1 := by
      simp only [List.length_cons]; omega
    rw [h, List.cons_append, List.drop_succ_cons, ih]

theorem dropAppendLe (a b : Str) (j : Nat) (h : j ≤ a.length) :
    (a ++ b).drop j = a.drop j ++ b := by
  induction a generalizing j with
  | nil =>
    have : j = 0 := by simpa using h
    simp [this]
  | cons x a ih =>
    cases j with
    | zero => simp
    | succ j =>
      simp only [List.cons_append, List.drop_succ_cons]
      exact ih j (by simp only [List.length_cons] at h; omega)

theorem takeAppendLe (a b : Str) (n : Nat) (h : n ≤ a.length) :
    (a ++ b).take n = a.take n := by
  induction a generalizing n with
  | nil =>
    have : n = 0 := by simpa using h
    simp [this]
  | cons x a ih =>
    cases n with
    | zero => simp
    | succ n =>
      simp only [List.cons_append, List.take_succ_cons,
        ih n (by simp only [List.length_cons] at h; omega)]

theorem matchAt_shift (a b needle : Str) (j : Nat) :
    matchAt needle (a ++ b) (a.length + j) = matchAt needle b j := by
  simp [matchAt, dropLenAppend]

theorem matchAt_left (a b needle : Str) (j : Nat) (h : j + needle.length ≤ a.length) :
    matchAt needle (a ++ b) j = matchAt needle a j := by
  have h1 : j ≤ a.length := by omega
  simp only [matchAt, dropAppendLe a b j h1,
    takeAppendLe (a.drop j) b needle.length (by rw [List.length_drop]; omega)]

theorem matchAt_emb (a needle b : Str) :
    matchAt needle (a ++ (needle ++ b)) a.length = true := by
  have h0 : (a ++ (needle ++ b)).drop a.length = needle ++ b := by
    have hh := dropLenAppend a (needle ++ b) 0
    rw [Nat.add_zero] at hh
    rw [hh, List.drop_zero]
  simp only [matchAt, decide_eq_true_eq, h0,
    takeAppendLe needle b needle.length (Nat.le_refl _), List.take_length]

theorem matchAt_ge_false (needle hay : Str) (i : Nat) (hne : needle ≠ [])
    (h : hay.length ≤ i) : matchAt needle hay i = false := by
  have hd : hay.drop i = [] := List.drop_eq_nil_of_le h
  simp only [matchAt, hd, List.take_nil, decide_eq_false_iff_not]
  exact fun hh => hne hh.symm

theorem matchAt_bound (needle hay : Str) (i : Nat) (hne : needle ≠ [])
    (h : matchAt needle hay i = true) : i + needle.length ≤ hay.length := by
  simp only [matchAt, decide_eq_true_eq] at h
  have hlen := congrArg List.length h
  simp only [List.length_take, List.length_drop] at hlen
  have hpos : 0 < needle.length := List.length_pos.mpr hne
  omega

theorem auxFind_some (needle : Str) : ∀ (s : Str) (j : Nat), auxFind needle s = some j →
    matchAt needle s j = true ∧ ∀ i, i < j → matchAt needle s i = false := by
  intro s
  induction s with
  | nil =>
    intro j h
    simp only [auxFind] at h
    by_cases hn : needle = []
    · rw [if_pos hn] at h
      have hj : j = 0 := by simpa using h.symm
      subst hj
      exact ⟨by simp [matchAt, hn], fun i hi => by omega⟩
    · rw [if_neg hn] at h
      exact absurd h (by simp)
  | cons c rest ih =>
    intro j h
    simp only [auxFind] at h
    by_cases h0 : (c :: rest).take needle.length = needle
    · rw [if_pos h0] at h
      have hj : j = 0 := by simpa using h.symm
      subst hj
      exact ⟨by simp [matchAt, h0], fun i hi => by omega⟩
    · rw [if_neg h0] at h
      cases hrest : auxFind needle rest with
      | none => rw [hrest] at h; exact absurd h (by simp)
      | some j0 =>
        rw [hrest] at h
        have hj : j0 + 1 = j := by simpa using h
        subst hj
        obtain ⟨h1, h2⟩ := ih j0 hrest
        refine ⟨by simpa [matchAt, List.drop_succ_cons] using h1, ?_⟩
        intro i hi
        cases i with
        | zero =>
          simp only [matchAt, List.drop_zero, decide_eq_false_iff_not]
          exact h0
        | succ i =>
          simpa [matchAt, List.drop_succ_cons] using h2 i (by omega)

theorem auxFind_eq_none (needle : Str) : ∀ (s : Str),
    (∀ i, matchAt needle s i = false) → auxFind needle s = none := by
  intro s
  induction s with
  | nil =>
    intro h
    have h0 := h 0
    simp only [matchAt, List.drop_nil, List.take_nil, decide_eq_false_iff_not] at h0
    have hne : ¬ (needle = []) := fun hn => h0 (by rw [hn])
    simp only [auxFind, if_neg hne]
  | cons c rest ih =>
    intro h
    have h0 := h 0
    simp only [matchAt, List.drop_zero, decide_eq_false_iff_not] at h0
    simp only [auxFind, if_neg h0]
    rw [ih (fun i => by simpa [matchAt, List.drop_succ_cons] using h (i + 1))]
    rfl

theorem auxFind_eq_some (needle : Str) : ∀ (s : Str) (j : Nat),
    matchAt needle s j = true → (∀ i, i < j → matchAt needle s i = false) →
    auxFind needle s = some j := by
  intro s
  induction s with
  | nil =>
    intro j hj hmin
    simp only [matchAt, List.drop_nil, List.take_nil, decide_eq_true_eq] at hj
    have hj0 : j = 0 := by
      by_contra hne
      have := hmin 0 (by omega)
      simp [matchAt, ← hj] at this
    subst hj0
    simp [auxFind, ← hj]
  | cons c rest ih =>
    intro j hj hmin
    cases j with
    | zero =>
      simp only [matchAt, List.drop_zero, decide_eq_true_eq] at hj
      simp [auxFind, hj]
    | succ j =>
      have h0 : ¬ ((c :: rest).take needle.length = needle) := by
        have := hmin 0 (by omega)
        simpa [matchAt, decide_eq_false_iff_not] using this
      simp only [auxFind, if_neg h0]
      rw [ih j (by simpa [matchAt, List.drop_succ_cons] using hj)
          (fun i hi => by simpa [matchAt, List.drop_succ_cons] using hmin (i + 1) (by omega))]
      rfl

theorem matchAt_drop (hay needle : Str) (s j : Nat) :
    matchAt needle (hay.drop s) j = matchAt needle hay (s + j) := by
  simp [matchAt, List.drop_drop]

theorem pyFindN_some (hay needle : Str) (start k : Nat)
    (h : pyFindN hay needle start = some k) :
    start ≤ k ∧ matchAt needle hay k = true ∧
      ∀ j, start ≤ j → j < k → matchAt needle hay j = false := by
  simp only [pyFindN] at h
  by_cases hs : start ≤ hay.length
  · rw [if_pos hs] at h
    cases haux : auxFind needle (hay.drop start) with
    | none => rw [haux] at h; exact absurd h (by simp)
    | some j0 =>
      rw [haux] at h
      have hk : start + j0 = k := by simpa using h
      obtain ⟨h1, h2⟩ := auxFind_some needle (hay.drop start) j0 haux
      subst hk
      refine ⟨by omega, by rw [← matchAt_drop]; exact h1, ?_⟩
      intro j hj1 hj2
      have := h2 (j - start) (by omega)
      rw [matchAt_drop] at this
      have hjj : start + (j - start) = j := by omega
      rwa [hjj] at this
  · rw [if_neg hs] at h
    exact absurd h (by simp)

theorem pyFindN_eq_some (hay needle : Str) (start k : Nat) (hne : needle ≠ [])
    (hsk : start ≤ k) (hk : matchAt needle hay k = true)
    (hmin : ∀ j, start ≤ j → j < k → matchAt needle hay j = false) :
    pyFindN hay needle start = some k := by
  have hkb := matchAt_bound needle hay k hne hk
  have hs : start ≤ hay.length := by omega
  simp only [pyFindN, if_pos hs]
  rw [auxFind_eq_some needle (hay.drop start) (k - start)
      (by rw [matchAt_drop]
          have hh : start + (k - start) = k := by omega
          rw [hh]; exact hk)
      (fun i hi => by
        rw [matchAt_drop]
        exact hmin (start + i) (by omega) (by omega))]
  have hh : start + (k - start) = k := by omega
  simp [hh]

theorem pyFindN_eq_none (hay needle : Str) (start : Nat) (hs : start ≤ hay.length)
    (h : ∀ j, start ≤ j → matchAt needle hay j = false) :
    pyFindN hay needle start = none := by
  simp only [pyFindN, if_pos hs]
  rw [auxFind_eq_none needle (hay.drop start)
      (fun i => by rw [matchAt_drop]; exact h (start + i) (by omega))]
  rfl

/-! ### Lengths of the fixed tags -/

theorem sOpenTag_length : sOpenTag.length = 31 := rfl

theorem sCloseTag_length : sCloseTag.length = 9 := rfl

theorem dOpenMarker_length : dOpenMarker.length = 8 := rfl

theorem dCloseTag_length : dCloseTag.length = 6 := rfl

theorem sOpenTag_ne_nil : sOpenTag ≠ [] := by decide

theorem sCloseTag_ne_nil : sCloseTag ≠ [] := by decide

theorem dOpenMarker_ne_nil : dOpenMarker ≠ [] := by decide

theorem dCloseTag_ne_nil : dCloseTag ≠ [] := by decide

/-! ### Unfolding lemmas for the script-collection loop -/

theorem scanScripts_end (doc : Str) (index : Nat) (acc : Str) (fuel : Nat)
    (h : doc.length ≤ index) :
    scanScripts doc index acc (fuel + 1) = acc := by
  simp [scanScripts, Nat.not_lt.mpr h]

theorem scanScripts_noOpen (doc : Str) (index : Nat) (acc : Str) (fuel : Nat)
    (h : index < doc.length) (hfind : pyFindN doc sOpenTag index = none) :
    scanScripts doc index acc (fuel + 1) = acc := by
  simp [scanScripts, h, hfind]

theorem scanScripts_noClose (doc : Str) (index s0 : Nat) (acc : Str) (fuel : Nat)
    (h : index < doc.length) (h1 : pyFindN doc sOpenTag index = some s0)
    (h2 : pyFindN doc sCloseTag s0 = none) :
    scanScripts doc index acc (fuel + 1) = acc := by
  simp [scanScripts, h, h1, h2]

theorem scanScripts_step (doc : Str) (index s0 e : Nat) (acc : Str) (fuel : Nat)
    (h : index < doc.length) (h1 : pyFindN doc sOpenTag index = some s0)
    (h2 : pyFindN doc sCloseTag s0 = some e) :
    scanScripts doc index acc (fuel + 1)
      = scanScripts doc (e + 9)
          (acc ++ (doc.drop (s0 + sOpenTag.length)).take
              (e - (s0 + sOpenTag.length)) ++ ";\n".toList) fuel := by
  simp [scanScripts, h, h1, h2]

/-! ### The script-collection loop on a structured document -/

theorem scan_blocks : ∀ (parts : List (Str × Str)) (C tail acc : Str) (F : Nat),
    (∀ p ∈ parts,
      (∀ j, j < p.1.length → matchAt sOpenTag (p.1 ++ sOpenTag) j = false) ∧
      (∀ j, j < sOpenTag.length + p.2.length →
        matchAt sCloseTag (sOpenTag ++ (p.2 ++ sCloseTag)) j = false)) →
    scanScripts (C ++ (blocksFlat parts ++ tail)) C.length acc (parts.length + (F + 1))
      = scanScripts (C ++ (blocksFlat parts ++ tail))
          (C.length + (blocksFlat parts).length) (acc ++ joinedBodies parts) (F + 1) := by
  intro parts
  induction parts with
  | nil =>
    intro C tail acc F hok
    simp [blocksFlat, joinedBodies]
  | cons p parts ih =>
    obtain ⟨sep, body⟩ := p
    intro C tail acc F hok
    have hokh := hok (sep, body) (List.mem_cons_self _ _)
    have hokh1 : ∀ j, j < sep.length → matchAt sOpenTag (sep ++ sOpenTag) j = false := hokh.1
    have hokh2 : ∀ j, j < sOpenTag.length + body.length →
        matchAt sCloseTag (sOpenTag ++ (body ++ sCloseTag)) j = false := hokh.2
    have hokt : ∀ p2 ∈ parts,
        (∀ j, j < p2.1.length → matchAt sOpenTag (p2.1 ++ sOpenTag) j = false) ∧
        (∀ j, j < sOpenTag.length + p2.2.length →
          matchAt sCloseTag (sOpenTag ++ (p2.2 ++ sCloseTag)) j = false) :=
      fun p2 hp2 => hok p2 (List.mem_cons_of_mem _ hp2)
    have h_lt : C.length < (C ++ (blocksFlat ((sep, body) :: parts) ++ tail)).length := by
      simp only [blocksFlat, blockStr, List.map_cons, List.flatten_cons,
        List.length_append, sOpenTag_length, sCloseTag_length]
      omega
    have hOpen : pyFindN (C ++ (blocksFlat ((sep, body) :: parts) ++ tail)) sOpenTag C.length
        = some (C.length + sep.length) := by
      apply pyFindN_eq_some _ _ _ _ sOpenTag_ne_nil (by omega)
      · have hre1 : C ++ (blocksFlat ((sep, body) :: parts) ++ tail)
            = (C ++ sep) ++ (sOpenTag ++ (body ++ (sCloseTag ++ (blocksFlat parts ++ tail)))) := by
          simp only [blocksFlat, blockStr, List.map_cons, List.flatten_cons, List.append_assoc]
        rw [hre1]
        have hl : C.length + sep.length = (C ++ sep).length := by
          simp only [List.length_append]
        rw [hl]
        exact matchAt_emb (C ++ sep) sOpenTag _
      · intro j hj1 hj2
        obtain ⟨j', rfl⟩ : ∃ j', j = C.length + j' := ⟨j - C.length, by omega⟩
        have hre2 : C ++ (blocksFlat ((sep, body) :: parts) ++ tail)
            = C ++ ((sep ++ sOpenTag) ++ (body ++ (sCloseTag ++ (blocksFlat parts ++ tail)))) := by
          simp only [blocksFlat, blockStr, List.map_cons, List.flatten_cons, List.append_assoc]
        rw [hre2, matchAt_shift]
        rw [matchAt_left (sep ++ sOpenTag) _ sOpenTag j'
          (by simp only [List.length_append]; omega)]
        exact hokh1 j' (by omega)
    have hClose : pyFindN (C ++ (blocksFlat ((sep, body) :: parts) ++ tail)) sCloseTag
        (C.length + sep.length)
        = some (C.length + sep.length + 31 + body.length) := by
      apply pyFindN_eq_some _ _ _ _ sCloseTag_ne_nil (by omega)
      · have hre3 : C ++ (blocksFlat ((sep, body) :: parts) ++ tail)
            = (C ++ (sep ++ (sOpenTag ++ body)))
              ++ (sCloseTag ++ (blocksFlat parts ++ tail)) := by
          simp only [blocksFlat, blockStr, List.map_cons, List.flatten_cons, List.append_assoc]
        rw [hre3]
        have hl3 : C.length + sep.length + 31 + body.length
            = (C ++ (sep ++ (sOpenTag ++ body))).length := by
          simp only [List.length_append, sOpenTag_length]; omega
        rw [hl3]
        exact matchAt_emb _ sCloseTag _
      · intro j hj1 hj2
        obtain ⟨j', rfl⟩ : ∃ j', j = (C ++ sep).length + j' :=
          ⟨j - (C.length + sep.length), by simp only [List.length_append]; omega⟩
        have hre4 : C ++ (blocksFlat ((sep, body) :: parts) ++ tail)
            = (C ++ sep) ++ ((sOpenTag ++ (body ++ sCloseTag)) ++ (blocksFlat parts ++ tail)) := by
          simp only [blocksFlat, blockStr, List.map_cons, List.flatten_cons, List.append_assoc]
        rw [hre4, matchAt_shift]
        have hj2b : j' < 31 + body.length := by
          simp only [List.length_append] at hj2; omega
        rw [matchAt_left (sOpenTag ++ (body ++ sCloseTag)) _ sCloseTag j'
          (by simp only [List.length_append, sOpenTag_length, sCloseTag_length]; omega)]
        exact hokh2 j' (by simp only [sOpenTag_length]; omega)
    have hfuel : ((sep, body) :: parts).length + (F + 1) = parts.length + (F + 1) + 1 := by
      simp only [List.length_cons]; omega
    rw [hfuel]
    rw [scanScripts_step (C ++ (blocksFlat ((sep, body) :: parts) ++ tail)) C.length
      (C.length + sep.length) (C.length + sep.length + 31 + body.length) acc
      (parts.length + (F + 1)) h_lt hOpen hClose]
    have hdropD : (C ++ (blocksFlat ((sep, body) :: parts) ++ tail)).drop
        (C.length + sep.length + sOpenTag.length)
        = body ++ (sCloseTag ++ (blocksFlat parts ++ tail)) := by
      have h5 : C ++ (blocksFlat ((sep, body) :: parts) ++ tail)
          = (C ++ (sep ++ sOpenTag)) ++ (body ++ (sCloseTag ++ (blocksFlat parts ++ tail))) := by
        simp only [blocksFlat, blockStr, List.map_cons, List.flatten_cons, List.append_assoc]
      have h6 : C.length + sep.length + sOpenTag.length = (C ++ (sep ++ sOpenTag)).length + 0 := by
        simp only [List.length_append]; omega
      rw [h5, h6, dropLenAppend, List.drop_zero]
    have htakeD : (body ++ (sCloseTag ++ (blocksFlat parts ++ tail))).take
        (C.length + sep.length + 31 + body.length - (C.length + sep.length + sOpenTag.length))
        = body := by
      have harith : C.length + sep.length + 31 + body.length
          - (C.length + sep.length + sOpenTag.length) = body.length := by
        simp only [sOpenTag_length]; omega
      rw [harith, takeAppendLe body _ body.length (Nat.le_refl _), List.take_length]
    have hacc : acc ++ ((C ++ (blocksFlat ((sep, body) :: parts) ++ tail)).drop
          (C.length + sep.length + sOpenTag.length)).take
          (C.length + sep.length + 31 + body.length - (C.length + sep.length + sOpenTag.length))
          ++ ";\n".toList
        = acc ++ (body ++ ";\n".toList) := by
      rw [hdropD, htakeD, List.append_assoc]
    rw [hacc]
    have hstep2 := ih (C ++ blockStr (sep, body)) tail (acc ++ (body ++ ";\n".toList)) F hokt
    have hdoc2 : (C ++ blockStr (sep, body)) ++ (blocksFlat parts ++ tail)
        = C ++ (blocksFlat ((sep, body) :: parts) ++ tail) := by
      simp only [blocksFlat, blockStr, List.map_cons, List.flatten_cons, List.append_assoc]
    rw [hdoc2] at hstep2
    have hidx : (C ++ blockStr (sep, body)).length
        = C.length + sep.length + 31 + body.length + 9 := by
      simp only [blockStr, List.length_append, sOpenTag_length, sCloseTag_length]; omega
    rw [hidx] at hstep2
    rw [hstep2]
    have hidx2 : C.length + sep.length + 31 + body.length + 9 + (blocksFlat parts).length
        = C.length + (blocksFlat ((sep, body) :: parts)).length := by
      simp only [blocksFlat, blockStr, List.map_cons, List.flatten_cons,
        List.length_append, sOpenTag_length, sCloseTag_length]
      omega
    have hacc2 : (acc ++ (body ++ ";\n".toList)) ++ joinedBodies parts
        = acc ++ joinedBodies ((sep, body) :: parts) := by
      simp [joinedBodies, List.append_assoc]
    rw [hidx2, hacc2]

theorem blocksFlat_length_ge (parts : List (Str × Str)) :
    parts.length ≤ (blocksFlat parts).length := by
  induction parts with
  | nil => simp [blocksFlat]
  | cons p parts ih =>
    simp only [blocksFlat, List.map_cons, List.flatten_cons, List.length_append,
      List.length_cons]
    have h1 : 1 ≤ (blockStr p).length := by
      simp only [blockStr, List.length_append, sOpenTag_length, sCloseTag_length]; omega
    simp only [blocksFlat] at ih
    omega

/-- C4: for every rendered document made of well-formed inline-script
blocks (each `<script type="text/javascript">` opening tag with its
following `</script>` closing tag, in document order) followed by trailing
text with no further opening tag, the script string returned by
`get_html_and_script_from_figure` is the concatenation, in document order
without reordering or deduplication, of each block body followed by `;`
and a newline; in particular the document with bodies `a=1` and `b=2`
yields `"a=1;\nb=2;\n"`, and a document with no script blocks yields the
empty string. -/
theorem C4_script_concatenation :
    (∀ (parts : List (Str × Str)) (tail : Str),
      (∀ p ∈ parts,
        (∀ j, j < p.1.length → matchAt sOpenTag (p.1 ++ sOpenTag) j = false) ∧
        (∀ j, j < sOpenTag.length + p.2.length →
          matchAt sCloseTag (sOpenTag ++ (p.2 ++ sCloseTag)) j = false)) →
      (∀ j, j < tail.length → matchAt sOpenTag tail j = false) →
      (get_html_and_script_from_figure (blocksFlat parts ++ tail)).script
        = joinedBodies parts)
    ∧ (get_html_and_script_from_figure exDocTwoScripts).script = "a=1;\nb=2;\n".toList
    ∧ (get_html_and_script_from_figure exDocNoScripts).script = [] := by
  refine ⟨?_, by decide, by decide⟩
  intro parts tail hok htail
  show scanScripts (blocksFlat parts ++ tail) 0 []
      ((blocksFlat parts ++ tail).length + 1) = joinedBodies parts
  have hlb : parts.length ≤ (blocksFlat parts ++ tail).length := by
    have := blocksFlat_length_ge parts
    simp only [List.length_append]; omega
  have hF : (blocksFlat parts ++ tail).length + 1
      = parts.length + (((blocksFlat parts ++ tail).length - parts.length) + 1) := by omega
  rw [hF]
  have h1 := scan_blocks parts [] tail []
    ((blocksFlat parts ++ tail).length - parts.length) hok
  simp only [List.nil_append, List.length_nil, Nat.zero_add] at h1
  rw [h1]
  by_cases hc : (blocksFlat parts).length < (blocksFlat parts ++ tail).length
  · apply scanScripts_noOpen _ _ _ _ hc
    apply pyFindN_eq_none _ _ _ (by omega)
    intro j hj
    obtain ⟨j', rfl⟩ : ∃ j', j = (blocksFlat parts).length + j' :=
      ⟨j - (blocksFlat parts).length, by omega⟩
    rw [matchAt_shift]
    by_cases hj2 : j' < tail.length
    · exact htail j' hj2
    · exact matchAt_ge_false _ _ _ sOpenTag_ne_nil (by omega)
  · exact scanScripts_end _ _ _ _ (by omega)

/-- Witness for C4: a concrete two-block document with separators, scanned
through the general statement. -/
theorem C4_script_concatenation_witness :
    (get_html_and_script_from_figure
        (blocksFlat [("<p>x</p>".toList, "a=1".toList), ("<hr>".toList, "b=2".toList)]
          ++ "<p>done</p>".toList)).script
      = joinedBodies [("<p>x</p>".toList, "a=1".toList), ("<hr>".toList, "b=2".toList)] :=
  C4_script_concatenation.1 _ _ (by decide) (by decide)

/-- C10: when an inline-script opening tag occurs with no subsequent
closing tag, `get_html_and_script_from_figure` stops scanning there and
returns normally: the unterminated block contributes nothing to the
script string, while all well-formed blocks before it are still
included. -/
theorem C10_unterminated_script :
    ∀ (parts : List (Str × Str)) (t1 t2 : Str),
      (∀ p ∈ parts,
        (∀ j, j < p.1.length → matchAt sOpenTag (p.1 ++ sOpenTag) j = false) ∧
        (∀ j, j < sOpenTag.length + p.2.length →
          matchAt sCloseTag (sOpenTag ++ (p.2 ++ sCloseTag)) j = false)) →
      (∀ j, j < t1.length → matchAt sOpenTag (t1 ++ sOpenTag) j = false) →
      (∀ j, j < (t1 ++ (sOpenTag ++ t2)).length → t1.length ≤ j →
        matchAt sCloseTag (t1 ++ (sOpenTag ++ t2)) j = false) →
      (get_html_and_script_from_figure
          (blocksFlat parts ++ (t1 ++ (sOpenTag ++ t2)))).script
        = joinedBodies parts := by
  intro parts t1 t2 hok ht1 hnc
  show scanScripts (blocksFlat parts ++ (t1 ++ (sOpenTag ++ t2))) 0 []
      ((blocksFlat parts ++ (t1 ++ (sOpenTag ++ t2))).length + 1) = joinedBodies parts
  have hlb : parts.length ≤ (blocksFlat parts ++ (t1 ++ (sOpenTag ++ t2))).length := by
    have := blocksFlat_length_ge parts
    simp only [List.length_append]; omega
  have hF : (blocksFlat parts ++ (t1 ++ (sOpenTag ++ t2))).length + 1
      = parts.length
        + (((blocksFlat parts ++ (t1 ++ (sOpenTag ++ t2))).length - parts.length) + 1) := by
    omega
  rw [hF]
  have h1 := scan_blocks parts [] (t1 ++ (sOpenTag ++ t2)) []
    ((blocksFlat parts ++ (t1 ++ (sOpenTag ++ t2))).length - parts.length) hok
  simp only [List.nil_append, List.length_nil, Nat.zero_add] at h1
  rw [h1]
  have hlt : (blocksFlat parts).length
      < (blocksFlat parts ++ (t1 ++ (sOpenTag ++ t2))).length := by
    simp only [List.length_append, sOpenTag_length]; omega
  have hOpen2 : pyFindN (blocksFlat parts ++ (t1 ++ (sOpenTag ++ t2))) sOpenTag
      (blocksFlat parts).length = some ((blocksFlat parts).length + t1.length) := by
    apply pyFindN_eq_some _ _ _ _ sOpenTag_ne_nil (by omega)
    · have hre : blocksFlat parts ++ (t1 ++ (sOpenTag ++ t2))
          = (blocksFlat parts ++ t1) ++ (sOpenTag ++ t2) := by
        simp [List.append_assoc]
      rw [hre]
      have hl : (blocksFlat parts).length + t1.length = (blocksFlat parts ++ t1).length := by
        simp only [List.length_append]
      rw [hl]
      exact matchAt_emb _ sOpenTag _
    · intro j hj1 hj2
      obtain ⟨j', rfl⟩ : ∃ j', j = (blocksFlat parts).length + j' :=
        ⟨j - (blocksFlat parts).length, by omega⟩
      rw [matchAt_shift]
      have hre2 : t1 ++ (sOpenTag ++ t2) = (t1 ++ sOpenTag) ++ t2 := by
        simp [List.append_assoc]
      rw [hre2]
      rw [matchAt_left (t1 ++ sOpenTag) _ sOpenTag j'
        (by simp only [List.length_append]; omega)]
      exact ht1 j' (by omega)
  have hClose2 : pyFindN (blocksFlat parts ++ (t1 ++ (sOpenTag ++ t2))) sCloseTag
      ((blocksFlat parts).length + t1.length) = none := by
    apply pyFindN_eq_none _ _ _ (by simp only [List.length_append]; omega)
    intro j hj
    by_cases hjlen : j < (blocksFlat parts ++ (t1 ++ (sOpenTag ++ t2))).length
    · obtain ⟨j', rfl⟩ : ∃ j', j = (blocksFlat parts).length + j' :=
        ⟨j - (blocksFlat parts).length, by omega⟩
      rw [matchAt_shift]
      refine hnc j' ?_ (by omega)
      simp only [List.length_append] at hjlen ⊢
      omega
    · exact matchAt_ge_false _ _ _ sCloseTag_ne_nil (by omega)
  exact scanScripts_noClose _ _ _ _ _ hlt hOpen2 hClose2

/-- Witness for C10: one well-formed block, then an opening tag that is
never closed; only the first body is collected. -/
theorem C10_unterminated_script_witness :
    (get_html_and_script_from_figure
        (blocksFlat [("<p>x</p>".toList, "a=1".toList)]
          ++ ("<em>".toList ++ (sOpenTag ++ "b=2".toList)))).script
      = joinedBodies [("<p>x</p>".toList, "a=1".toList)] :=
  C10_unterminated_script _ _ _ (by decide) (by decide) (by decide)

/-! ### Helper lemmas for the Int-indexed find and slice -/

theorem pyFindI_nonneg_some (hay needle : Str) (s k : Nat)
    (h : pyFindN hay needle s = some k) :
    pyFindI hay needle (s : Int) = (k : Int) := by
  simp only [pyFindI]
  have h1 : ¬ ((s : Int) < 0) := by omega
  have h2 : (s : Int).toNat = s := by omega
  rw [if_neg h1, h2, h]

theorem pySliceI_natCast (s : Str) (a b : Nat) :
    pySliceI s (a : Int) (b : Int) = (s.drop a).take (b - a) := by
  simp only [pySliceI]
  have h1 : ¬ ((a : Int) < 0) := by omega
  have h2 : ¬ ((b : Int) < 0) := by omega
  have h3 : (a : Int).toNat = a := by omega
  have h4 : (b : Int).toNat = b := by omega
  rw [if_neg h1, if_neg h2, h3, h4]

/-- C1 (counterexample to the claim as stated): on a document that is
exactly one container element, the returned markup is the document with
its closing tag cut off, not the full outer text through the closing tag. -/
theorem C1_counterexample :
    (get_html_and_script_from_figure
        "<div id=\"q\" class=\"plotly-graph-div\"></div>".toList).html ++ dCloseTag
      = "<div id=\"q\" class=\"plotly-graph-div\"></div>".toList
    ∧ (get_html_and_script_from_figure
        "<div id=\"q\" class=\"plotly-graph-div\"></div>".toList).html
      ≠ "<div id=\"q\" class=\"plotly-graph-div\"></div>".toList :=
  ⟨by decide, by decide⟩

/-- C1 (amended): for every rendered document containing the container
opening marker and a later closing tag, the markup returned by
`get_html_and_script_from_figure` is the substring from the start of the
opening marker up to, but not including, the first closing tag after it
(the closing tag itself is excluded). -/
theorem C1_markup_region :
    ∀ (pre mid post : Str),
      (∀ j, j < pre.length → matchAt dOpenMarker (pre ++ dOpenMarker) j = false) →
      (∀ j, j < dOpenMarker.length + mid.length →
        matchAt dCloseTag (dOpenMarker ++ (mid ++ dCloseTag)) j = false) →
      (get_html_and_script_from_figure
          (pre ++ (dOpenMarker ++ (mid ++ (dCloseTag ++ post))))).html
        = dOpenMarker ++ mid := by
  intro pre mid post h1 h2
  have hf1 : pyFindN (pre ++ (dOpenMarker ++ (mid ++ (dCloseTag ++ post)))) dOpenMarker 0
      = some pre.length := by
    apply pyFindN_eq_some _ _ _ _ dOpenMarker_ne_nil (by omega)
    · exact matchAt_emb pre dOpenMarker _
    · intro j hj1 hj2
      have hre : pre ++ (dOpenMarker ++ (mid ++ (dCloseTag ++ post)))
          = (pre ++ dOpenMarker) ++ (mid ++ (dCloseTag ++ post)) := by
        simp [List.append_assoc]
      rw [hre]
      rw [matchAt_left (pre ++ dOpenMarker) _ dOpenMarker j
        (by simp only [List.length_append]; omega)]
      exact h1 j hj2
  have hf2 : pyFindN (pre ++ (dOpenMarker ++ (mid ++ (dCloseTag ++ post)))) dCloseTag
      pre.length = some (pre.length + (dOpenMarker.length + mid.length)) := by
    apply pyFindN_eq_some _ _ _ _ dCloseTag_ne_nil (by omega)
    · have hre : pre ++ (dOpenMarker ++ (mid ++ (dCloseTag ++ post)))
          = (pre ++ (dOpenMarker ++ mid)) ++ (dCloseTag ++ post) := by
        simp [List.append_assoc]
      rw [hre]
      have hl : pre.length + (dOpenMarker.length + mid.length)
          = (pre ++ (dOpenMarker ++ mid)).length := by
        simp only [List.length_append]
      rw [hl]
      exact matchAt_emb _ dCloseTag _
    · intro j hj1 hj2
      obtain ⟨j', rfl⟩ : ∃ j', j = pre.length + j' := ⟨j - pre.length, by omega⟩
      rw [matchAt_shift]
      have hre2 : dOpenMarker ++ (mid ++ (dCloseTag ++ post))
          = (dOpenMarker ++ (mid ++ dCloseTag)) ++ post := by
        simp [List.append_assoc]
      rw [hre2]
      rw [matchAt_left (dOpenMarker ++ (mid ++ dCloseTag)) _ dCloseTag j'
        (by simp only [List.length_append]; omega)]
      exact h2 j' (by omega)
  show pySliceI (pre ++ (dOpenMarker ++ (mid ++ (dCloseTag ++ post))))
      (pyFindI (pre ++ (dOpenMarker ++ (mid ++ (dCloseTag ++ post)))) dOpenMarker 0)
      (pyFindI (pre ++ (dOpenMarker ++ (mid ++ (dCloseTag ++ post)))) dCloseTag
        (pyFindI (pre ++ (dOpenMarker ++ (mid ++ (dCloseTag ++ post)))) dOpenMarker 0))
    = dOpenMarker ++ mid
  have hI1 : pyFindI (pre ++ (dOpenMarker ++ (mid ++ (dCloseTag ++ post)))) dOpenMarker 0
      = ((pre.length : Nat) : Int) := by
    have := pyFindI_nonneg_some _ dOpenMarker 0 pre.length hf1
    simpa using this
  rw [hI1]
  rw [pyFindI_nonneg_some _ dCloseTag pre.length
    (pre.length + (dOpenMarker.length + mid.length)) hf2]
  rw [pySliceI_natCast]
  have ha : pre.length + (dOpenMarker.length + mid.length) - pre.length
      = dOpenMarker.length + mid.length := by omega
  rw [ha]
  have hd : (pre ++ (dOpenMarker ++ (mid ++ (dCloseTag ++ post)))).drop pre.length
      = dOpenMarker ++ (mid ++ (dCloseTag ++ post)) := by
    have hh := dropLenAppend pre (dOpenMarker ++ (mid ++ (dCloseTag ++ post))) 0
    rw [Nat.add_zero] at hh
    rw [hh, List.drop_zero]
  rw [hd]
  have hre : dOpenMarker ++ (mid ++ (dCloseTag ++ post))
      = (dOpenMarker ++ mid) ++ (dCloseTag ++ post) := by
    simp [List.append_assoc]
  rw [hre]
  have hlm : dOpenMarker.length + mid.length = (dOpenMarker ++ mid).length := by
    simp only [List.length_append]
  rw [hlm]
  exact List.take_left _ _

/-- Witness for C1 (amended): a concrete document with text around the
container element. -/
theorem C1_markup_region_witness :
    (get_html_and_script_from_figure
        ("<html><body>".toList ++ (dOpenMarker
          ++ ("\"q\" class=\"plotly-graph-div\">".toList
            ++ (dCloseTag ++ "<p>after</p>".toList))))).html
      = dOpenMarker ++ "\"q\" class=\"plotly-graph-div\">".toList :=
  C1_markup_region _ _ _ (by decide) (by decide)

/-- C2 (counterexample to the claim as stated): on a document without the
container marker, the function returns normally, with an empty markup
string and an empty script, instead of failing. -/
theorem C2_counterexample :
    (get_html_and_script_from_figure "<p>hello</p>".toList).html = []
    ∧ (get_html_and_script_from_figure "<p>hello</p>".toList).script = [] :=
  ⟨by decide, by decide⟩

/-- C2 (amended): when the container opening marker is absent from the
rendered document, `get_html_and_script_from_figure` does not fail: it
silently returns an empty markup string (the failed `find` yields `-1`,
and the resulting slice is empty). -/
theorem C2_missing_marker :
    ∀ doc : Str, (∀ j, j < doc.length → matchAt dOpenMarker doc j = false) →
      (get_html_and_script_from_figure doc).html = [] := by
  intro doc h
  have hf1 : pyFindN doc dOpenMarker 0 = none := by
    apply pyFindN_eq_none _ _ _ (by omega)
    intro j hj
    by_cases hjl : j < doc.length
    · exact h j hjl
    · exact matchAt_ge_false _ _ _ dOpenMarker_ne_nil (by omega)
  have hI1 : pyFindI doc dOpenMarker 0 = -1 := by
    simp only [pyFindI]
    have h1 : ¬ ((0 : Int) < 0) := by omega
    have h2 : (0 : Int).toNat = 0 := rfl
    rw [if_neg h1, h2, hf1]
  have hf2 : pyFindN doc dCloseTag (((doc.length : Int) + (-1)).toNat) = none := by
    apply pyFindN_eq_none _ _ _ (by omega)
    intro j hj
    by_cases hm : matchAt dCloseTag doc j = true
    · have hb := matchAt_bound dCloseTag doc j dCloseTag_ne_nil hm
      rw [dCloseTag_length] at hb
      omega
    · simpa using hm
  have hI2 : pyFindI doc dCloseTag (-1) = -1 := by
    simp only [pyFindI]
    rw [if_pos (by omega : (-1 : Int) < 0), hf2]
  show pySliceI doc (pyFindI doc dOpenMarker 0)
      (pyFindI doc dCloseTag (pyFindI doc dOpenMarker 0)) = []
  rw [hI1, hI2]
  simp only [pySliceI]
  rw [Nat.sub_self, List.take_zero]

/-- Witness for C2 (amended): a concrete marker-free document. -/
theorem C2_missing_marker_witness :
    (get_html_and_script_from_figure "<span>no marker here</span>".toList).html = [] :=
  C2_missing_marker _ (by decide)

/-! ### The title builder -/

theorem joinSep_pair (sep a b : Str) : joinSep sep [a, b] = a ++ (sep ++ b) := by
  simp [joinSep, List.append_assoc]

theorem joinSep_triple (sep a b c : Str) :
    joinSep sep [a, b, c] = a ++ (sep ++ (b ++ (sep ++ c))) := by
  simp [joinSep, List.append_assoc]

theorem lookup_isSome_iff_mem (l : List (Str × Str)) (g : Str) :
    (List.lookup g l).isSome = true ↔ g ∈ l.map Prod.fst := by
  induction l with
  | nil => simp [List.lookup]
  | cons p l ih =>
    obtain ⟨k, v⟩ := p
    by_cases hk : (g == k) = true
    · have hgk : g = k := by simpa using hk
      simp [List.lookup, hk, hgk]
    · have hkf : (g == k) = false := by simpa using hk
      have hgk : ¬ (g = k) := by simpa using hkf
      simp [List.lookup, hkf, hgk, ih]

/-- C5: `get_graph_title` joins the comma-and-space-joined column headers
(x-axis headers then y-axis headers), the fixed marker `(first 1000 rows)`
exactly when `filtered` is true, and the chart-type label, with single
spaces; in particular `["Age"], ["Income"], "bar"` gives
`"Age, Income bar chart"` unfiltered and
`"Age, Income (first 1000 rows) bar chart"` filtered. -/
theorem C5_title_format :
    (∀ (x y : List Str) (g label : Str),
      List.lookup g GRAPH_TITLE_LABELS = some label →
      get_graph_title x y false g
          = some (joinSep ", ".toList (x ++ y) ++ (" ".toList ++ label))
        ∧ get_graph_title x y true g
          = some (joinSep ", ".toList (x ++ y) ++ (" (first 1000 rows) ".toList ++ label)))
    ∧ get_graph_title ["Age".toList] ["Income".toList] false "bar".toList
        = some "Age, Income bar chart".toList
    ∧ get_graph_title ["Age".toList] ["Income".toList] true "bar".toList
        = some "Age, Income (first 1000 rows) bar chart".toList := by
  refine ⟨?_, by decide, by decide⟩
  intro x y g label hl
  constructor
  · simp only [get_graph_title, hl, Bool.false_eq_true, if_false]
    rw [joinSep_pair]
  · simp only [get_graph_title, hl, if_true]
    rw [joinSep_triple]
    have hgr : " ".toList ++ ("(first 1000 rows)".toList ++ " ".toList)
        = " (first 1000 rows) ".toList := by decide
    rw [← hgr]
    simp [List.append_assoc]

/-- Witness for C5: a concrete one-header title through the general
statement. -/
theorem C5_title_format_witness :
    get_graph_title ["Age".toList] [] false "line".toList
      = some (joinSep ", ".toList (["Age".toList] ++ []) ++ (" ".toList ++ "line".toList)) :=
  (C5_title_format.1 _ _ _ _ (by decide)).1

/-- C7: `get_graph_title` fails fast (the `KeyError` of the dictionary
access, modelled by `none`) exactly for chart-type identifiers outside the
closed `GRAPH_TITLE_LABELS` table, and does not fail for identifiers
inside it. -/
theorem C7_unknown_chart_type :
    ∀ (x y : List Str) (filtered : Bool) (g : Str),
      (get_graph_title x y filtered g).isSome = true
        ↔ g ∈ GRAPH_TITLE_LABELS.map Prod.fst := by
  intro x y filtered g
  rw [← lookup_isSome_iff_mem]
  cases h : List.lookup g GRAPH_TITLE_LABELS <;> simp [get_graph_title, h]

/-- C9: with both header sequences empty, the comma-joined column list is
the empty string and is still a leading component of the space-join, so
the returned title begins with a space. -/
theorem C9_empty_headers_leading_space :
    ∀ (filtered : Bool) (g label : Str),
      List.lookup g GRAPH_TITLE_LABELS = some label →
      get_graph_title [] [] filtered g
        = some (' ' :: (if filtered
            then "(first 1000 rows)".toList ++ (' ' :: label)
            else label)) := by
  intro filtered g label hl
  cases filtered <;> simp only [get_graph_title, hl] <;> rfl

/-- Witness for C9: the filtered empty-header title for the bar chart
starts with a space. -/
theorem C9_empty_headers_leading_space_witness :
    get_graph_title [] [] true "bar".toList
      = some (' ' :: ("(first 1000 rows)".toList ++ (' ' :: "bar chart".toList))) :=
  C9_empty_headers_leading_space true "bar".toList "bar chart".toList (by decide)

/-! ### The parameter serializer -/

/-- C3 (the code at the failing input): on the nested dictionary
`a -> (b -> 1)` with `as_single_line = True`, `param_dict_to_code` returns
a string that contains newline characters, because the recursive call for
the nested dictionary does not forward `as_single_line`. -/
theorem C3_single_line_nested_newline :
    param_dict_to_code
        [("a".toList, ParamValue.node [("b".toList, ParamValue.scalar "1".toList)])] 0 true
      = "a = dict(\n        b=1\n    )".toList
    ∧ '\n' ∈ param_dict_to_code
        [("a".toList, ParamValue.node [("b".toList, ParamValue.scalar "1".toList)])] 0 true := by
  have h : param_dict_to_code
      [("a".toList, ParamValue.node [("b".toList, ParamValue.scalar "1".toList)])] 0 true
      = "a = dict(\n        b=1\n    )".toList := by
    simp [param_dict_to_code, entriesLoop, entryChunk, nlConst, tabConst, tabs, TAB]
  exact ⟨h, by rw [h]; decide⟩

/-- C8 (counterexample to the claim as stated): the non-single-line
rendering of the scalar entry `a -> 1` is `"\n    a=1\n"`; the entry is
rendered `a=1`, and the spaced form `" = "` appears nowhere in the
output. -/
theorem C8_counterexample :
    param_dict_to_code [("a".toList, ParamValue.scalar "1".toList)] 0 false
      = "\n    a=1\n".toList
    ∧ ∀ j, j < ("\n    a=1\n".toList).length →
        matchAt " = ".toList "\n    a=1\n".toList j = false := by
  constructor
  · simp [param_dict_to_code, entriesLoop, entryChunk, nlConst, tabConst, tabs, TAB]
  · decide

theorem matchAt_append_pad (needle s a b : Str) (i : Nat)
    (h : matchAt needle s i = true) :
    matchAt needle (a ++ (s ++ b)) (a.length + i) = true := by
  rw [matchAt_shift]
  by_cases hne : needle = []
  · subst hne; simp [matchAt]
  · have hb := matchAt_bound needle s i hne h
    rw [matchAt_left s b needle i hb]
    exact h

theorem exists_matchAt_append (needle s a b : Str)
    (h : ∃ i, matchAt needle s i = true) :
    ∃ i, matchAt needle (a ++ (s ++ b)) i = true := by
  obtain ⟨i, hi⟩ := h
  exact ⟨a.length + i, matchAt_append_pad needle s a b i hi⟩

theorem entriesLoop_contains_chunk :
    ∀ (entries : List (Str × ParamValue)) (level : Nat) (single first : Bool)
      (key : Str) (v : ParamValue), (key, v) ∈ entries →
      ∃ i, matchAt (entryChunk key v level) (entriesLoop entries level single first) i
        = true := by
  intro entries
  induction entries with
  | nil =>
    intro level single first key v h
    exact absurd h (by simp)
  | cons e rest ih =>
    intro level single first key v h
    obtain ⟨k0, v0⟩ := e
    rcases List.mem_cons.mp h with heq | hmem
    · rw [Prod.mk.injEq] at heq
      obtain ⟨rfl, rfl⟩ := heq
      have hsh : entriesLoop ((key, v) :: rest) level single first
          = ((if first then [] else ", ".toList ++ nlConst single)
              ++ tabs single (level + 1))
            ++ (entryChunk key v level ++ entriesLoop rest level single false) := by
        simp [entriesLoop, List.append_assoc]
      rw [hsh]
      apply exists_matchAt_append
      exact ⟨0, by simp [matchAt]⟩
    · obtain ⟨i, hi⟩ := ih level single false key v hmem
      have hsh : entriesLoop ((k0, v0) :: rest) level single first
          = (((if first then [] else ", ".toList ++ nlConst single)
                ++ tabs single (level + 1)) ++ entryChunk k0 v0 level)
            ++ (entriesLoop rest level single false ++ []) := by
        simp [entriesLoop, List.append_assoc]
      rw [hsh]
      exact exists_matchAt_append _ _ _ _ ⟨i, hi⟩

theorem param_contains_chunk :
    ∀ (entries : List (Str × ParamValue)) (level : Nat) (single : Bool)
      (key : Str) (v : ParamValue), (key, v) ∈ entries →
      ∃ i, matchAt (entryChunk key v level) (param_dict_to_code entries level single) i
        = true := by
  intro entries level single key v h
  obtain ⟨i, hi⟩ := entriesLoop_contains_chunk entries level single true key v h
  have hsh : param_dict_to_code entries level single
      = (if level = 0 then nlConst single else "dict(".toList ++ nlConst single)
        ++ (entriesLoop entries level single true
          ++ (if level = 0 then nlConst single
              else nlConst single ++ tabs single level ++ ")".toList)) := by
    simp [param_dict_to_code, List.append_assoc]
  rw [hsh]
  exact exists_matchAt_append _ _ _ _ ⟨i, hi⟩

/-- C8 (amended): the rendering of an entry depends on the kind of its
value, not on the mode: a scalar entry is rendered `key=value` and a
mapping entry is rendered `key = value` (spaces around the equals sign) in
both single-line and multi-line modes, and every entry's rendered chunk
occurs verbatim in the serializer's output. -/
theorem C8_entry_rendering :
    (∀ (key lit : Str) (level : Nat),
      entryChunk key (ParamValue.scalar lit) level = key ++ ("=".toList ++ lit))
    ∧ (∀ (key : Str) (sub : List (Str × ParamValue)) (level : Nat),
      entryChunk key (ParamValue.node sub) level
        = key ++ (" = ".toList ++ param_dict_to_code sub (level + 1) false))
    ∧ (∀ (entries : List (Str × ParamValue)) (level : Nat) (single : Bool)
        (key : Str) (v : ParamValue), (key, v) ∈ entries →
        ∃ i, matchAt (entryChunk key v level) (param_dict_to_code entries level single) i
          = true) := by
  refine ⟨?_, ?_, param_contains_chunk⟩
  · intro key lit level
    simp [entryChunk, List.append_assoc]
  · intro key sub level
    simp [entryChunk, List.append_assoc]

/-- Witness for C8 (amended): the chunk `a=1` occurs in the single-line
serialization of the singleton dictionary `a -> 1`. -/
theorem C8_entry_rendering_witness :
    ∃ i, matchAt (entryChunk "a".toList (ParamValue.scalar "1".toList) 0)
      (param_dict_to_code [("a".toList, ParamValue.scalar "1".toList)] 0 true) i = true :=
  C8_entry_rendering.2.2 _ 0 true _ _ (List.mem_cons_self _ _)

/-! ### The next-free-tab-name helper -/

theorem toDecAux_eq_decRef : ∀ (fuel n : Nat) (ds : List Char), n < fuel →
    toDecAux fuel n ds = decRef n ++ ds := by
  intro fuel
  induction fuel with
  | zero => intro n ds h; omega
  | succ fuel ih =>
    intro n ds h
    by_cases h0 : n / 10 = 0
    · rw [decRef]
      simp [toDecAux, h0]
    · rw [decRef]
      rw [dif_neg h0]
      have hpos : 0 < n := Nat.pos_of_ne_zero (fun h00 => h0 (by simp [h00]))
      have hdiv : n / 10 < n := Nat.div_lt_self hpos (by omega)
      simp only [toDecAux, if_neg h0]
      rw [ih (n / 10) (Nat.digitChar (n % 10) :: ds) (by omega)]
      simp [List.append_assoc]

theorem natToStr_eq_decRef (n : Nat) : natToStr n = decRef n := by
  have h := toDecAux_eq_decRef (n + 1) n [] (by omega)
  simpa [natToStr] using h

theorem digitChar_toNat : ∀ m : Nat, m < 10 → (Nat.digitChar m).toNat = 48 + m := by
  intro m h
  interval_cases m <;> rfl

theorem fromDecimal_append_digit (a : Str) (c : Char) :
    fromDecimal (a ++ [c]) = 10 * fromDecimal a + (c.toNat - 48) := by
  simp [fromDecimal, List.foldl_append]

theorem fromDecimal_decRef : ∀ n : Nat, fromDecimal (decRef n) = n := by
  intro n
  induction n using Nat.strong_induction_on with
  | _ n ih =>
    by_cases h0 : n / 10 = 0
    · have hlt : n < 10 := by omega
      rw [decRef, dif_pos h0]
      have hsingle : fromDecimal [Nat.digitChar (n % 10)]
          = (Nat.digitChar (n % 10)).toNat - 48 := by
        simp [fromDecimal]
      rw [hsingle, digitChar_toNat (n % 10) (by omega)]
      omega
    · have hpos : 0 < n := Nat.pos_of_ne_zero (fun h00 => h0 (by simp [h00]))
      rw [decRef, dif_neg h0]
      rw [fromDecimal_append_digit]
      rw [ih (n / 10) (Nat.div_lt_self hpos (by omega))]
      rw [digitChar_toNat (n % 10) (by omega)]
      omega

theorem graphName_inj : Function.Injective graphName := by
  intro a b h
  have ha : natToStr a = natToStr b := List.append_cancel_left h
  rw [natToStr_eq_decRef, natToStr_eq_decRef] at ha
  have hf := congrArg fromDecimal ha
  rwa [fromDecimal_decRef, fromDecimal_decRef] at hf

theorem exists_fresh (names : List Str) :
    ∃ N, N ≤ names.length ∧ graphName N ∉ names := by
  by_contra hcon
  push_neg at hcon
  have hsub : (Finset.range (names.length + 1)).image graphName ⊆ names.toFinset := by
    intro s hs
    simp only [Finset.mem_image, Finset.mem_range] at hs
    obtain ⟨j, hj, rfl⟩ := hs
    rw [List.mem_toFinset]
    exact hcon j (by omega)
  have hcard := Finset.card_le_card hsub
  rw [Finset.card_image_of_injective _ graphName_inj, Finset.card_range] at hcard
  have hfin := List.toFinset_card_le names
  omega

theorem probeAux_spec : ∀ (fuel k : Nat) (names : List Str),
    (∃ j, k ≤ j ∧ j < k + fuel ∧ graphName j ∉ names) →
    ∃ N, probeAux names fuel k = some (graphName N) ∧ graphName N ∉ names ∧ k ≤ N ∧
      ∀ m, k ≤ m → m < N → graphName m ∈ names := by
  intro fuel
  induction fuel with
  | zero =>
    intro k names h
    obtain ⟨j, h1, h2, _⟩ := h
    omega
  | succ fuel ih =>
    intro k names h
    by_cases hmem : graphName k ∈ names
    · have hnext : ∃ j, k + 1 ≤ j ∧ j < (k + 1) + fuel ∧ graphName j ∉ names := by
        obtain ⟨j, h1, h2, h3⟩ := h
        refine ⟨j, ?_, by omega, h3⟩
        rcases Nat.eq_or_lt_of_le h1 with heq | hlt
        · exact absurd (heq ▸ hmem) h3
        · omega
      obtain ⟨N, hN1, hN2, hN3, hN4⟩ := ih (k + 1) names hnext
      refine ⟨N, ?_, hN2, by omega, ?_⟩
      · simp [probeAux, hmem, hN1]
      · intro m hm1 hm2
        rcases Nat.eq_or_lt_of_le hm1 with heq | hlt
        · exact heq ▸ hmem
        · exact hN4 m (by omega) hm2
    · refine ⟨k, ?_, hmem, Nat.le_refl k, fun m hm1 hm2 => by omega⟩
      simp [probeAux, hmem]

/-- C6: `get_new_graph_tab_name` returns `graph<N>` for the smallest
non-negative integer `N` such that `graph<N>` is not among the existing
graph-tab names; consequently the returned name is never present in the
input, and the function is a pure function of its input (two calls with
the same input give the same result). -/
theorem C6_next_graph_tab_name :
    ∀ graph_data_dict : List (Str × GraphData),
      ∃ N, get_new_graph_tab_name graph_data_dict = some (graphName N)
        ∧ graphName N ∉ all_graph_names graph_data_dict
        ∧ (∀ m, m < N → graphName m ∈ all_graph_names graph_data_dict)
        ∧ get_new_graph_tab_name graph_data_dict
            = get_new_graph_tab_name graph_data_dict := by
  intro d
  obtain ⟨N0, hN0a, hN0b⟩ := exists_fresh (all_graph_names d)
  obtain ⟨N, h1, h2, h3, h4⟩ := probeAux_spec ((all_graph_names d).length + 1) 0
    (all_graph_names d) ⟨N0, by omega, by omega, hN0b⟩
  exact ⟨N, h1, h2, fun m hm => h4 m (by omega) hm, rfl⟩
